import Mathlib

/-!
Verification of the deno-hooks repository: a shallow embedding of the
configuration loader (src/config.ts), the run orchestrator (run.ts) and the
file-selection pipeline, with theorems settling the specified properties.

The repository sources do not include files.ts (glob matcher, file filter)
nor executor.ts (hook executor); those parts are modelled from the spec,
as marked in their doc comments.  Everything else is translated from the
TypeScript sources.
-/

namespace DenoHooks

/-! ## Glob matcher (File Selector leaf) -/

/-- Left brace character, written via its code point. -/
def lbraceChar : Char := Char.ofNat 123

/-- Right brace character, written via its code point. -/
def rbraceChar : Char := Char.ofNat 125

/-- Modelled from the spec: files.ts is absent from the sources.  The star
wildcard consumes a run of characters; the suffixes reachable from a star are
the suffixes obtained by deleting a (possibly empty) run of non-separator
characters, so that a single star never crosses a path separator (spec section
8: matching "bar/foo.ts" against "*.ts" is false, no implicit recursive
descent). -/
def starSuffixes : List Char → List (List Char)
  | [] => [[]]
  | c :: cs => (c :: cs) :: (if c = '/' then [] else starSuffixes cs)

/-- Modelled from the spec: files.ts is absent from the sources.  Core glob
match of a path against a single (already brace-expanded) pattern, both as
character lists.  A literal character must match exactly; a star matches any
run of non-separator characters. -/
def matchGlob (path : List Char) : List Char → Bool
  | [] => path.isEmpty
  | p :: ps =>
    if p = '*' then
      (starSuffixes path).any (fun s => matchGlob s ps)
    else
      match path with
      | [] => false
      | c :: cs => c = p && matchGlob cs ps

/-- Split a character list into the comma-separated alternatives of a brace
group. -/
def splitOnComma : List Char → List (List Char)
  | [] => [[]]
  | c :: rest =>
    if c = ',' then [] :: splitOnComma rest
    else
      match splitOnComma rest with
      | [] => [[c]]
      | g :: gs => (c :: g) :: gs

/-- Break a character list at the first occurrence of the given character,
returning the part before it and the part after it. -/
def breakAtChar (target : Char) : List Char → Option (List Char × List Char)
  | [] => none
  | c :: cs =>
    if c = target then some ([], cs)
    else
      match breakAtChar target cs with
      | none => none
      | some (pre, post) => some (c :: pre, post)

/-- Modelled from the spec: files.ts is absent from the sources.  Brace
alternation expands to the union of its alternatives before matching (spec
section 4.1): the first brace group is replaced by each alternative in turn; a
pattern without a complete brace group stays a single literal pattern. -/
def braceExpand (pattern : List Char) : List (List Char) :=
  match breakAtChar lbraceChar pattern with
  | none => [pattern]
  | some (pre, rest) =>
    match breakAtChar rbraceChar rest with
    | none => [pattern]
    | some (mid, post) =>
      (splitOnComma mid).map (fun alt => pre ++ alt ++ post)

/-- Modelled from the spec: files.ts is absent from the sources.  The Glob
Matcher contract of spec section 4.1 (named matches in the spec; matches is a reserved word in Lean): expand brace alternation, then match the
path against any alternative. -/
def globMatches (path pattern : String) : Bool :=
  (braceExpand pattern.data).any (fun p => matchGlob path.data p)

/-- Modelled from the spec: files.ts is absent from the sources.  File
filtering by an include glob keeps exactly the candidate files the pattern
matches, in order. -/
def filterFiles (files : List String) (glob : String) : List String :=
  files.filter (fun f => globMatches f glob)

/-- Modelled from the spec: files.ts is absent from the sources.  A file is
excluded when any of the given exclude patterns matches it. -/
def isExcluded (file : String) (patterns : List String) : Bool :=
  patterns.any (fun p => globMatches file p)

/-! ## Dynamic values (the parse result of YAML or JSON sources)

The configuration loader in src/config.ts receives whatever value the YAML or
JSON parser produced and validates it dynamically, so its embedding works over
a dynamic value type with JavaScript truthiness and property access. -/

/-- A dynamic value as produced by the YAML or JSON parser. -/
inductive Value where
  | str (s : String)
  | num (n : Int)
  | bool (b : Bool)
  | null
  | arr (elems : List Value)
  | obj (fields : List (String × Value))

/-- JavaScript truthiness of a value: empty strings, zero, false and null are
falsy; arrays and objects are always truthy. -/
def jsTruthy : Value → Bool
  | Value.str s => if s = "" then false else true
  | Value.num n => if n = 0 then false else true
  | Value.bool b => b
  | Value.null => false
  | Value.arr _ => true
  | Value.obj _ => true

/-- First binding of a key in an object field list. -/
def lookupField : List (String × Value) → String → Option Value
  | [], _ => none
  | (k, v) :: rest, key => if k = key then some v else lookupField rest key

/-- JavaScript property access: a present object field yields its value,
anything else yields undefined (none). -/
def jsGet : Value → String → Option Value
  | Value.obj fields, key => lookupField fields key
  | _, _ => none

/-- JavaScript truthiness of a possibly-undefined value: undefined is falsy. -/
def jsTruthyOpt : Option Value → Bool
  | none => false
  | some v => jsTruthy v

/-- The JavaScript test typeof v === "object": true for objects, arrays and
null, false for strings, numbers and booleans. -/
def jsTypeofObject : Value → Bool
  | Value.obj _ => true
  | Value.arr _ => true
  | Value.null => true
  | _ => false

/-- Object.entries of a dynamic value: the field list of an object, the
index-keyed elements of an array, empty otherwise. -/
def entriesOf : Value → List (String × Value)
  | Value.obj fields => fields
  | Value.arr elems => elems.enum.map (fun p => (toString p.1, p.2))
  | _ => []

/-! ## Configuration Resolver (src/config.ts) -/

/-- Structural validation errors thrown by validateConfig (src/config.ts,
lines 97 to 116); the thrown message strings are abstracted into
constructors carrying the data interpolated into them. -/
inductive ValidationError where
  | noHooksObject
  | triggerNotArray (trigger : String)
  | missingId (trigger : String)
  | missingRun (trigger : String)

/-- Inner loop of validateConfig over one trigger hook list: each element
must have truthy id and run properties; the first violation is reported. -/
def validateHooks (trigger : String) : List Value → Except ValidationError Unit
  | [] => Except.ok ()
  | hook :: rest =>
    if jsTruthyOpt (jsGet hook "id") = false then
      Except.error (ValidationError.missingId trigger)
    else if jsTruthyOpt (jsGet hook "run") = false then
      Except.error (ValidationError.missingRun trigger)
    else validateHooks trigger rest

/-- Outer loop of validateConfig over Object.entries of the hooks mapping:
each trigger value must be an array, and its elements are validated in
order. -/
def validateTriggers : List (String × Value) → Except ValidationError Unit
  | [] => Except.ok ()
  | (trigger, Value.arr hooks) :: rest =>
    match validateHooks trigger hooks with
    | Except.ok _ => validateTriggers rest
    | Except.error e => Except.error e
  | (trigger, _) :: _ => Except.error (ValidationError.triggerNotArray trigger)

/-- Translation of validateConfig (src/config.ts, lines 97 to 116): the
config must have a truthy hooks property of object type, every trigger value
must be an array, and every hook must have truthy id and run properties. -/
def validateConfig (config : Value) : Except ValidationError Unit :=
  match jsGet config "hooks" with
  | none => Except.error ValidationError.noHooksObject
  | some hooksV =>
    if jsTruthy hooksV = false then Except.error ValidationError.noHooksObject
    else if jsTypeofObject hooksV = false then
      Except.error ValidationError.noHooksObject
    else validateTriggers (entriesOf hooksV)

/-- One configuration source file as the loader sees it: absent (reading
throws NotFound), present but unparseable, or parsed to a value. -/
inductive SourceFile where
  | absent
  | unparseable
  | parsed (v : Value)

/-- Errors of loadConfig: the final configuration-not-found error, or the
error wrapping applied to a parse or validation failure of a given source
path (src/config.ts wraps both into a Failed-to-parse message naming the
source file). -/
inductive LoadError where
  | notFound
  | failedParse (path : String) (detail : Option ValidationError)

/-- Translation of loadConfig (src/config.ts, lines 57 to 92): try
deno-hooks.yml first; a parse or validation failure there is fatal; only when
that file is absent is deno.json consulted, and only its truthy deno-hooks
key counts as a source; otherwise the configuration-not-found error is
thrown. -/
def loadConfig (yml denoJson : SourceFile) : Except LoadError Value :=
  match yml with
  | SourceFile.parsed v =>
    match validateConfig v with
    | Except.ok _ => Except.ok v
    | Except.error e =>
      Except.error (LoadError.failedParse "deno-hooks.yml" (some e))
  | SourceFile.unparseable =>
    Except.error (LoadError.failedParse "deno-hooks.yml" none)
  | SourceFile.absent =>
    match denoJson with
    | SourceFile.parsed j =>
      match jsGet j "deno-hooks" with
      | some dh =>
        if jsTruthy dh then
          match validateConfig dh with
          | Except.ok _ => Except.ok dh
          | Except.error e =>
            Except.error (LoadError.failedParse "deno.json" (some e))
        else Except.error LoadError.notFound
      | none => Except.error LoadError.notFound
    | SourceFile.unparseable =>
      Except.error (LoadError.failedParse "deno.json" none)
    | SourceFile.absent => Except.error LoadError.notFound

/-- The parsed form of the default YAML document written by
createDefaultConfig (install.ts): every trigger maps to a list of bare
command strings. -/
def defaultConfigValue : Value :=
  Value.obj [("hooks", Value.obj
    [("pre-commit", Value.arr
      [Value.str "deno task fmt", Value.str "deno task lint"]),
     ("pre-push", Value.arr [Value.str "deno task test"])])]

/-! ## Data model (Hook, Config, HookResult from config.ts and hook.ts) -/

/-- One configured hook (interface Hook in src/config.ts).  Optional fields
are options; the optional booleans are represented by their truthiness. -/
structure Hook where
  id : String
  name : Option String
  run : String
  glob : Option String
  pass_filenames : Bool
  exclude : Option String
  parallel : Bool
deriving DecidableEq

/-- The validated in-memory configuration (interface Config in
src/config.ts): a mapping from trigger name to its ordered hook list. -/
structure Config where
  hooks : List (String × List Hook)
deriving DecidableEq

/-- Outcome of one executed hook (interface HookResult in hook.ts, as used
by run.ts): success flag plus an optional message. -/
structure HookResult where
  success : Bool
  message : Option String
deriving DecidableEq

/-- First hook list bound to a trigger name in the configuration mapping. -/
def lookupHooks : List (String × List Hook) → String → Option (List Hook)
  | [], _ => none
  | (k, v) :: rest, key => if k = key then some v else lookupHooks rest key

/-- Translation of getHooksForTrigger (src/config.ts, lines 134 to 136):
the hook list declared for the trigger, or the empty list when the trigger is
not declared. -/
def getHooksForTrigger (config : Config) (hookName : String) : List Hook :=
  match lookupHooks config.hooks hookName with
  | some l => l
  | none => []

/-! ## Run Orchestrator (run.ts) -/

/-- Truthiness of an optional string field: present and non-empty. -/
def strOptTruthy : Option String → Bool
  | none => false
  | some s => if s = "" then false else true

/-- The identity under which a hook is reported: hook.name when truthy,
hook.id otherwise (run.ts writes hook.name or-else hook.id). -/
def displayId (hook : Hook) : String :=
  match hook.name with
  | some n => if n = "" then hook.id else n
  | none => hook.id

/-- Whether the glob-filtering branch of the run loop is entered for this
hook: the hook has a truthy glob and the candidate file list is non-empty
(run.ts, line 302). -/
def globActive (hook : Hook) (files : List String) : Bool :=
  strOptTruthy hook.glob && !files.isEmpty

/-- The matched file list the run loop passes to the executor (run.ts, lines
301 to 310): inside the glob branch the candidate files are filtered by the
include glob and then, when a truthy exclude is present, by the exclude
pattern; otherwise the candidate list is used unchanged. -/
def matchedFilesFor (hook : Hook) (files : List String) : List String :=
  if globActive hook files then
    let m := filterFiles files (hook.glob.getD "")
    if strOptTruthy hook.exclude then
      m.filter (fun f => !isExcluded f [hook.exclude.getD ""])
    else m
  else files

/-- Whether the run loop skips a hook without recording a result (run.ts,
lines 312 to 316): only inside the glob branch, when no files matched and the
hook declares pass_filenames. -/
def skipHook (hook : Hook) (files : List String) : Bool :=
  globActive hook files && (matchedFilesFor hook files).isEmpty
    && hook.pass_filenames

/-- The sequential hook loop of run (run.ts, lines 299 to 337): each
non-skipped hook is executed on its matched files and its result recorded
under its display identity; an exception thrown by the executor aborts the
loop and propagates (to the top-level catch of run). -/
def runLoop (exec : Hook → List String → Except Unit HookResult)
    (files : List String) : List Hook → Except Unit (List (String × HookResult))
  | [] => Except.ok []
  | hook :: rest =>
    if skipHook hook files then runLoop exec files rest
    else
      match exec hook (matchedFilesFor hook files) with
      | Except.error e => Except.error e
      | Except.ok r =>
        match runLoop exec files rest with
        | Except.error e => Except.error e
        | Except.ok rs => Except.ok ((displayId hook, r) :: rs)

/-- The candidate file list for a trigger (run.ts, lines 284 to 294): the
staged files for pre-commit (whose retrieval may fail), the empty list for
every other trigger. -/
def candidateFiles (hookName : String) (staged : Except Unit (List String)) :
    Except Unit (List String) :=
  if hookName = "pre-commit" then staged else Except.ok []

/-- The recorded results that failed (run.ts, line 341). -/
def failedOf (results : List (String × HookResult)) :
    List (String × HookResult) :=
  results.filter (fun p => !p.2.success)

/-- The summary step of run (run.ts, lines 340 to 354) applied to the loop
outcome: a thrown exception maps to exit code 1 with nothing recorded;
otherwise exit code 0 exactly when no recorded result failed. -/
def aggregateResults (outcome : Except Unit (List (String × HookResult))) :
    Nat × List (String × HookResult) :=
  match outcome with
  | Except.error _ => (1, [])
  | Except.ok results =>
    if (failedOf results).isEmpty then (0, results) else (1, results)

/-- Translation of run (run.ts, lines 265 to 362), returning the exit code
together with the recorded report.  The effectful collaborators are passed
as parameters: the git-root discovery and staged-file listing as possibly
failing values, the configuration as the possibly failing result of
loadConfig, and the executor (executeHook of the absent executor.ts) as a
possibly throwing function.  A failure of any step reaches the top-level
catch, which yields exit code 1; an empty hook list or an empty staged set
for pre-commit yields exit code 0 before any hook runs. -/
def run (gitRoot : Except Unit String) (config : Except Unit Config)
    (staged : Except Unit (List String))
    (exec : Hook → List String → Except Unit HookResult)
    (hookName : String) : Nat × List (String × HookResult) :=
  match gitRoot with
  | Except.error _ => (1, [])
  | Except.ok _ =>
    match config with
    | Except.error _ => (1, [])
    | Except.ok cfg =>
      match getHooksForTrigger cfg hookName with
      | [] => (0, [])
      | hook :: rest =>
        match candidateFiles hookName staged with
        | Except.error _ => (1, [])
        | Except.ok files =>
          if hookName = "pre-commit" ∧ files = [] then (0, [])
          else aggregateResults (runLoop exec files (hook :: rest))

/-- An executor that never throws, built from a total result function; spec
section 4.4 states the Hook Executor never propagates an exception. -/
def okExec (execT : Hook → List String → HookResult) :
    Hook → List String → Except Unit HookResult :=
  fun hook files => Except.ok (execT hook files)

/-! ## Spec-side filtering definitions (for the refinement claims) -/

/-- The filtering contract in the words of spec section 4.2: apply the
include glob if present (drop non-matches), then apply the exclude pattern if
present (drop matches); with neither present the candidate set passes
through unchanged. -/
def specFilter (hook : Hook) (files : List String) : List String :=
  let included :=
    match hook.glob with
    | some g => files.filter (fun f => globMatches f g)
    | none => files
  match hook.exclude with
  | some e => included.filter (fun f => !globMatches f e)
  | none => included

/-- The amended filtering contract: the include glob is applied only when it
is present, non-empty and the candidate set is non-empty, and only in that
case is a present non-empty exclude pattern applied afterwards; otherwise
the candidate set passes through unchanged. -/
def amendedSpecFilter (hook : Hook) (files : List String) : List String :=
  match hook.glob with
  | none => files
  | some g =>
    if g = "" ∨ files = [] then files
    else
      let included := files.filter (fun f => globMatches f g)
      match hook.exclude with
      | none => included
      | some e =>
        if e = "" then included
        else included.filter (fun f => !globMatches f e)

/-! ## Shape predicates for the validation claims -/

/-- A hook entry whose id and run properties, when present, are strings, as
the Hook interface of src/config.ts declares them. -/
def hookShaped (v : Value) : Prop :=
  (jsGet v "id" = none ∨ ∃ s, jsGet v "id" = some (Value.str s))
  ∧ (jsGet v "run" = none ∨ ∃ s, jsGet v "run" = some (Value.str s))

/-- A property that is present and holds a non-empty string. -/
def nonemptyStrField (o : Option Value) : Prop :=
  ∃ s, o = some (Value.str s) ∧ s ≠ ""

/-- A configuration value with the declared trigger lists, in the shape the
parsers produce for a well-formed source. -/
def mkCfg (triggers : List (String × List Value)) : Value :=
  Value.obj [("hooks",
    Value.obj (triggers.map (fun p => (p.1, Value.arr p.2))))]

/-- A hook entry that passes the per-hook checks of validateConfig: truthy
id and run properties. -/
def goodIdRun (v : Value) : Prop :=
  jsTruthyOpt (jsGet v "id") = true ∧ jsTruthyOpt (jsGet v "run") = true

/-! ## Concrete fixtures used by the witness theorems -/

/-- A file-gated hook: an include glob together with pass_filenames. -/
def gatedHook : Hook := ⟨"x", none, "cmd", some "*.ts", true, none, false⟩

/-- A configuration binding the gated hook to the pre-push trigger. -/
def prePushConfig : Config := ⟨[("pre-push", [gatedHook])]⟩

/-- First of three glob-free hooks. -/
def hookA : Hook := ⟨"a", none, "cmd-a", none, false, none, false⟩

/-- Second of three glob-free hooks. -/
def hookB : Hook := ⟨"b", none, "cmd-b", none, false, none, false⟩

/-- Third of three glob-free hooks. -/
def hookC : Hook := ⟨"c", none, "cmd-c", none, false, none, false⟩

/-- A configuration binding the three hooks to the pre-commit trigger. -/
def preCommitConfig : Config := ⟨[("pre-commit", [hookA, hookB, hookC])]⟩

/-- A result function that fails exactly the hook with id b. -/
def flagExec : Hook → List String → HookResult :=
  fun h _ => if h.id = "b" then ⟨false, none⟩ else ⟨true, none⟩

/-! ## Helper lemmas -/

/-- A star can consume a whole separator-free character run: the empty
suffix is reachable. -/
theorem starSuffixes_any_isEmpty (cs : List Char) :
    (∀ c ∈ cs, c ≠ '/') → (starSuffixes cs).any (fun t => t.isEmpty) = true := by
  induction cs with
  | nil => intro _; rfl
  | cons c cs ih =>
    intro h
    have hc : ¬ c = '/' := h c (List.mem_cons_self c cs)
    simp only [starSuffixes, if_neg hc, List.any_cons, List.isEmpty_cons,
      Bool.false_or]
    exact ih (fun d hd => h d (List.mem_cons_of_mem c hd))

/-- The single-star pattern matches every separator-free path. -/
theorem matchGlob_star (s : List Char) (h : ∀ c ∈ s, c ≠ '/') :
    matchGlob s ['*'] = true := by
  simp only [matchGlob, if_pos rfl]
  exact starSuffixes_any_isEmpty s h

/-- With a never-throwing executor the run loop returns exactly the
non-skipped hooks, in declaration order, each paired with its executor
result on its matched files. -/
theorem runLoop_okExec_eq (execT : Hook → List String → HookResult)
    (files : List String) :
    ∀ hooks : List Hook,
      runLoop (okExec execT) files hooks
        = Except.ok ((hooks.filter (fun h => !skipHook h files)).map
            (fun h => (displayId h, execT h (matchedFilesFor h files)))) := by
  intro hooks
  induction hooks with
  | nil => rfl
  | cons hook rest ih =>
    cases hs : skipHook hook files with
    | true => simp [runLoop, hs, ih, List.filter_cons]
    | false => simp [runLoop, hs, okExec, ih, List.filter_cons]

/-- The failed sublist is empty exactly when every recorded result
succeeded. -/
theorem failedOf_isEmpty_iff (results : List (String × HookResult)) :
    (failedOf results).isEmpty = true ↔ ∀ p ∈ results, p.2.success = true := by
  simp [failedOf, List.isEmpty_iff, List.filter_eq_nil_iff]

/-- A hook without a glob is executed on the unfiltered candidate list. -/
theorem matchedFilesFor_glob_none (hook : Hook) (files : List String)
    (h : hook.glob = none) : matchedFilesFor hook files = files := by
  simp [matchedFilesFor, globActive, strOptTruthy, h]

/-- A hook without a glob is never skipped. -/
theorem skipHook_glob_none (hook : Hook) (files : List String)
    (h : hook.glob = none) : skipHook hook files = false := by
  simp [skipHook, globActive, strOptTruthy, h]

/-- Candidate files from a successful staged-file listing. -/
theorem candidateFiles_ok (t : String) (staged : List String) :
    candidateFiles t (Except.ok staged)
      = Except.ok (if t = "pre-commit" then staged else []) := by
  unfold candidateFiles
  split <;> rfl

/-- The summary step on a completed loop: the recorded report is returned
unchanged and the exit code is derived from its failed sublist. -/
theorem aggregateResults_ok (results : List (String × HookResult)) :
    aggregateResults (Except.ok results)
      = (if (failedOf results).isEmpty then 0 else 1, results) := by
  have h : aggregateResults (Except.ok results)
      = if (failedOf results).isEmpty then (0, results) else (1, results) := rfl
  rw [h]
  by_cases hf : (failedOf results).isEmpty = true
  · simp [hf]
  · simp [hf]

/-- Lookup finds the binding that follows a prefix of other triggers. -/
theorem lookupHooks_first (t : String) (l : List Hook) :
    ∀ pre : List (String × List Hook), (∀ e ∈ pre, e.1 ≠ t) →
      ∀ post, lookupHooks (pre ++ (t, l) :: post) t = some l := by
  intro pre
  induction pre with
  | nil => intro _ post; simp [lookupHooks]
  | cons e pre ih =>
    intro h post
    obtain ⟨k, v⟩ := e
    have hk : ¬ k = t := h (k, v) (List.mem_cons_self _ _)
    simp only [List.cons_append, lookupHooks, if_neg hk]
    exact ih (fun d hd => h d (List.mem_cons_of_mem _ hd)) post

/-- Lookup misses when no binding carries the key. -/
theorem lookupHooks_none (t : String) :
    ∀ hooks : List (String × List Hook), (∀ e ∈ hooks, e.1 ≠ t) →
      lookupHooks hooks t = none := by
  intro hooks
  induction hooks with
  | nil => intro _; rfl
  | cons e rest ih =>
    intro h
    obtain ⟨k, v⟩ := e
    have hk : ¬ k = t := h (k, v) (List.mem_cons_self _ _)
    simp only [lookupHooks, if_neg hk]
    exact ih (fun d hd => h d (List.mem_cons_of_mem _ hd))

/-- For a string-or-absent property, truthiness coincides with holding a
non-empty string. -/
theorem truthyOpt_iff_nonemptyStr (o : Option Value)
    (h : o = none ∨ ∃ s, o = some (Value.str s)) :
    jsTruthyOpt o = true ↔ nonemptyStrField o := by
  cases h with
  | inl h => subst h; simp [jsTruthyOpt, nonemptyStrField]
  | inr h =>
    obtain ⟨s, rfl⟩ := h
    by_cases hs : s = ""
    · subst hs; simp [jsTruthyOpt, jsTruthy, nonemptyStrField]
    · simp [jsTruthyOpt, jsTruthy, hs, nonemptyStrField]

/-- On a shaped hook list, the per-trigger validation loop accepts exactly
when every hook carries non-empty id and run strings. -/
theorem validateHooks_ok_iff (trigger : String) :
    ∀ hooks : List Value, (∀ e ∈ hooks, hookShaped e) →
      (validateHooks trigger hooks = Except.ok () ↔
        ∀ e ∈ hooks,
          nonemptyStrField (jsGet e "id") ∧ nonemptyStrField (jsGet e "run")) := by
  intro hooks
  induction hooks with
  | nil => intro _; simp [validateHooks]
  | cons e rest ih =>
    intro h
    have he := h e (List.mem_cons_self e rest)
    have hrest := fun d hd => h d (List.mem_cons_of_mem e hd)
    by_cases hid : jsTruthyOpt (jsGet e "id") = true
    · by_cases hrun : jsTruthyOpt (jsGet e "run") = true
      · have hgood : nonemptyStrField (jsGet e "id")
            ∧ nonemptyStrField (jsGet e "run") :=
          ⟨(truthyOpt_iff_nonemptyStr _ he.1).mp hid,
           (truthyOpt_iff_nonemptyStr _ he.2).mp hrun⟩
        rw [show validateHooks trigger (e :: rest) = validateHooks trigger rest
          from by simp [validateHooks, hid, hrun]]
        rw [ih hrest, List.forall_mem_cons]
        exact ⟨fun hr => ⟨hgood, hr⟩, fun hall => hall.2⟩
      · have hbad : ¬ nonemptyStrField (jsGet e "run") :=
          fun hn => hrun ((truthyOpt_iff_nonemptyStr _ he.2).mpr hn)
        simp only [Bool.not_eq_true] at hrun
        rw [show validateHooks trigger (e :: rest)
            = Except.error (ValidationError.missingRun trigger)
          from by simp [validateHooks, hid, hrun]]
        rw [List.forall_mem_cons]
        exact ⟨fun h => Except.noConfusion h,
          fun hall => absurd hall.1.2 hbad⟩
    · have hbad : ¬ nonemptyStrField (jsGet e "id") :=
        fun hn => hid ((truthyOpt_iff_nonemptyStr _ he.1).mpr hn)
      simp only [Bool.not_eq_true] at hid
      rw [show validateHooks trigger (e :: rest)
          = Except.error (ValidationError.missingId trigger)
        from by simp [validateHooks, hid]]
      rw [List.forall_mem_cons]
      exact ⟨fun h => Except.noConfusion h,
        fun hall => absurd hall.1.1 hbad⟩

/-- On shaped trigger lists, the outer validation loop accepts exactly when
every hook of every trigger carries non-empty id and run strings. -/
theorem validateTriggers_mapped_ok_iff :
    ∀ triggers : List (String × List Value),
      (∀ p ∈ triggers, ∀ e ∈ p.2, hookShaped e) →
      (validateTriggers (triggers.map (fun p => (p.1, Value.arr p.2)))
          = Except.ok () ↔
        ∀ p ∈ triggers, ∀ e ∈ p.2,
          nonemptyStrField (jsGet e "id") ∧ nonemptyStrField (jsGet e "run")) := by
  intro triggers
  induction triggers with
  | nil => intro _; simp [validateTriggers]
  | cons p rest ih =>
    intro h
    obtain ⟨t, l⟩ := p
    have hp := h (t, l) (List.mem_cons_self _ _)
    have hrest := fun d hd => h d (List.mem_cons_of_mem _ hd)
    simp only [List.map_cons, validateTriggers]
    cases hv : validateHooks t l with
    | ok u =>
      cases u
      have hl := (validateHooks_ok_iff t l hp).mp hv
      rw [ih hrest, List.forall_mem_cons]
      exact ⟨fun hr => ⟨hl, hr⟩, fun hall => hall.2⟩
    | error e =>
      have hl : ¬ ∀ d ∈ l,
          nonemptyStrField (jsGet d "id") ∧ nonemptyStrField (jsGet d "run") :=
        fun hall => by
          have hcontra := (validateHooks_ok_iff t l hp).mpr hall
          rw [hv] at hcontra
          exact Except.noConfusion hcontra
      rw [List.forall_mem_cons]
      exact ⟨fun h => Except.noConfusion h, fun hall => absurd hall.1 hl⟩

/-- The whole-config validation of a shaped configuration reduces to the
outer trigger loop. -/
theorem validateConfig_mkCfg (triggers : List (String × List Value)) :
    validateConfig (mkCfg triggers)
      = validateTriggers (triggers.map (fun p => (p.1, Value.arr p.2))) := by
  rfl

/-- The per-trigger validation loop walks past hooks whose id and run
properties are truthy. -/
theorem validateHooks_skip_good (trigger : String) :
    ∀ pre : List Value, (∀ h ∈ pre, goodIdRun h) → ∀ l,
      validateHooks trigger (pre ++ l) = validateHooks trigger l := by
  intro pre
  induction pre with
  | nil => intro _ l; rfl
  | cons e pre ih =>
    intro h l
    have he := h e (List.mem_cons_self e pre)
    rw [List.cons_append]
    rw [show validateHooks trigger (e :: (pre ++ l))
        = validateHooks trigger (pre ++ l)
      from by simp [validateHooks, he.1, he.2]]
    exact ih (fun d hd => h d (List.mem_cons_of_mem e hd)) l

/-! ## Claim theorems -/

/-- Claim C1: with three configured hooks of which the second fails, run
still executes the third, the report lists exactly one failing hook
identity, and the exit code is 1; for any run with successful collaborators
the exit code is 0 exactly when every recorded result succeeded; and the
loop executes and reports the non-skipped hooks in configuration-declared
order. -/
theorem c1_run_aggregation :
    (∀ root cfg staged execT (h1 h2 h3 : Hook),
      getHooksForTrigger cfg "pre-commit" = [h1, h2, h3] →
      staged ≠ [] →
      h1.glob = none → h2.glob = none → h3.glob = none →
      (execT h1 staged).success = true →
      (execT h2 staged).success = false →
      (execT h3 staged).success = true →
      run (Except.ok root) (Except.ok cfg) (Except.ok staged) (okExec execT)
          "pre-commit"
        = (1, [(displayId h1, execT h1 staged), (displayId h2, execT h2 staged),
               (displayId h3, execT h3 staged)])
      ∧ (failedOf [(displayId h1, execT h1 staged),
            (displayId h2, execT h2 staged),
            (displayId h3, execT h3 staged)]).map Prod.fst = [displayId h2])
    ∧ (∀ root cfg staged execT t,
        ((run (Except.ok root) (Except.ok cfg) (Except.ok staged)
            (okExec execT) t).1 = 0
          ↔ ∀ p ∈ (run (Except.ok root) (Except.ok cfg) (Except.ok staged)
              (okExec execT) t).2, p.2.success = true))
    ∧ (∀ execT files hooks,
        runLoop (okExec execT) files hooks
          = Except.ok ((hooks.filter (fun h => !skipHook h files)).map
              (fun h => (displayId h, execT h (matchedFilesFor h files))))) := by
  refine ⟨?_, ?_, fun execT files hooks => runLoop_okExec_eq execT files hooks⟩
  · intro root cfg staged execT h1 h2 h3 hh hs hg1 hg2 hg3 e1 e2 e3
    have hrep : runLoop (okExec execT) staged [h1, h2, h3]
        = Except.ok [(displayId h1, execT h1 staged),
            (displayId h2, execT h2 staged), (displayId h3, execT h3 staged)] := by
      rw [runLoop_okExec_eq]
      simp [skipHook_glob_none _ _ hg1, skipHook_glob_none _ _ hg2,
        skipHook_glob_none _ _ hg3, matchedFilesFor_glob_none _ _ hg1,
        matchedFilesFor_glob_none _ _ hg2, matchedFilesFor_glob_none _ _ hg3]
    have hfail : failedOf [(displayId h1, execT h1 staged),
        (displayId h2, execT h2 staged), (displayId h3, execT h3 staged)]
        = [(displayId h2, execT h2 staged)] := by
      simp [failedOf, e1, e2, e3]
    refine ⟨?_, by rw [hfail]; rfl⟩
    rw [run, hh, candidateFiles_ok]
    simp [hs, hrep, aggregateResults_ok, hfail]
  · intro root cfg staged execT t
    rw [run]
    cases hh : getHooksForTrigger cfg t with
    | nil => simp
    | cons hook rest =>
      simp only [candidateFiles_ok]
      by_cases hpre : t = "pre-commit" ∧ (if t = "pre-commit" then staged else []) = []
      · rw [if_pos hpre]
        simp
      · rw [if_neg hpre, runLoop_okExec_eq, aggregateResults_ok]
        by_cases hfe : (failedOf (((hook :: rest).filter
            (fun h => !skipHook h (if t = "pre-commit" then staged else []))).map
            (fun h => (displayId h, execT h (matchedFilesFor h
              (if t = "pre-commit" then staged else [])))))).isEmpty = true
        · simp only [hfe, if_true]
          simpa using (failedOf_isEmpty_iff _).mp hfe
        · simp only [hfe, Bool.false_eq_true, if_false]
          constructor
          · intro h; exact absurd h (by decide)
          · intro hall
            refine absurd ((failedOf_isEmpty_iff _).mpr ?_) hfe
            simpa using hall

/-- Witness for claim C1: a concrete three-hook pre-commit run in which the
second hook fails yields exit code 1, the full ordered report, and exactly
one failing identity. -/
theorem c1_witness :
    run (Except.ok "root") (Except.ok preCommitConfig) (Except.ok ["f.ts"])
        (okExec flagExec) "pre-commit"
      = (1, [(displayId hookA, flagExec hookA ["f.ts"]),
             (displayId hookB, flagExec hookB ["f.ts"]),
             (displayId hookC, flagExec hookC ["f.ts"])])
    ∧ (failedOf [(displayId hookA, flagExec hookA ["f.ts"]),
          (displayId hookB, flagExec hookB ["f.ts"]),
          (displayId hookC, flagExec hookC ["f.ts"])]).map Prod.fst
        = [displayId hookB] :=
  c1_run_aggregation.1 "root" preCommitConfig ["f.ts"] flagExec hookA hookB hookC
    (by decide) (by decide) rfl rfl rfl (by decide) (by decide) (by decide)

/-- Counterexample for claim C2: the gated hook has pass_filenames set and
spec filtering of the empty pre-push candidate set yields zero files, yet
run records a HookResult for it (the skip check sits inside the branch that
requires a non-empty candidate list). -/
theorem c2_counterexample :
    gatedHook.pass_filenames = true
    ∧ specFilter gatedHook [] = []
    ∧ (run (Except.ok "root") (Except.ok prePushConfig) (Except.ok [])
        (okExec (fun _ _ => ⟨true, none⟩)) "pre-push").2
      = [("x", ⟨true, none⟩)] := by decide

/-- Claim C2 (amended): the skip applies when the hook declares a non-empty
glob AND the candidate list is non-empty; in that case, when include and
exclude filtering yields zero files and the hook declares pass_filenames,
the loop records nothing for it, and removing the hook from the
configuration leaves the whole run unchanged. -/
theorem c2_amended_skip :
    (∀ exec files (hook : Hook) rest,
      strOptTruthy hook.glob = true → files ≠ [] →
      matchedFilesFor hook files = [] → hook.pass_filenames = true →
      runLoop exec files (hook :: rest) = runLoop exec files rest)
    ∧ (∀ root staged exec t (hook : Hook) rest files,
        candidateFiles t staged = Except.ok files →
        strOptTruthy hook.glob = true → files ≠ [] →
        matchedFilesFor hook files = [] → hook.pass_filenames = true →
        run (Except.ok root) (Except.ok ⟨[(t, hook :: rest)]⟩) staged exec t
          = run (Except.ok root) (Except.ok ⟨[(t, rest)]⟩) staged exec t) := by
  have skip : ∀ exec files (hook : Hook) rest,
      strOptTruthy hook.glob = true → files ≠ [] →
      matchedFilesFor hook files = [] → hook.pass_filenames = true →
      runLoop exec files (hook :: rest) = runLoop exec files rest := by
    intro exec files hook rest hg hf hm hp
    have hskip : skipHook hook files = true := by
      simp [skipHook, globActive, hg, hm, hp, List.isEmpty_iff, hf]
    simp [runLoop, hskip]
  refine ⟨skip, ?_⟩
  intro root staged exec t hook rest files hc hg hf hm hp
  have hget1 : getHooksForTrigger ⟨[(t, hook :: rest)]⟩ t = hook :: rest := by
    simp [getHooksForTrigger, lookupHooks]
  have hget2 : getHooksForTrigger ⟨[(t, rest)]⟩ t = rest := by
    simp [getHooksForTrigger, lookupHooks]
  have hcond : ¬(t = "pre-commit" ∧ files = []) := fun h => hf h.2
  cases rest with
  | nil =>
    rw [run, run]
    rw [hget1, hget2]
    simp only [hc, hcond, if_neg hcond]
    rw [skip exec files hook [] hg hf hm hp]
    rfl
  | cons h2 t2 =>
    rw [run, run]
    rw [hget1, hget2]
    simp only [hc, if_neg hcond]
    rw [skip exec files hook (h2 :: t2) hg hf hm hp]

/-- Witness for claim C2 (amended): a concrete gated hook whose glob matches
none of the non-empty candidate list is skipped by the loop. -/
theorem c2_witness :
    runLoop (fun _ _ => Except.error ()) ["a.js"] [gatedHook]
      = runLoop (fun _ _ => Except.error ()) ["a.js"] [] :=
  c2_amended_skip.1 (fun _ _ => Except.error ()) ["a.js"] gatedHook []
    (by decide) (by decide) (by decide) (by decide)

/-- Counterexample for claim C3: for a hook carrying an exclude pattern but
no include glob the code ignores the exclude entirely, so its filtering
differs from the spec contract of apply-include-then-apply-exclude. -/
theorem c3_counterexample :
    matchedFilesFor ⟨"e", none, "c", none, false, some "*", false⟩ ["a.ts"]
      ≠ specFilter ⟨"e", none, "c", none, false, some "*", false⟩ ["a.ts"] := by
  decide

/-- Claim C3 (amended): filtering applies the include glob only when it is
present, non-empty and the candidate list is non-empty, and only then
applies a present non-empty exclude pattern; otherwise the candidate list
passes through unchanged; the output is always an order-preserving sublist
of the input. -/
theorem c3_amended_filter (hook : Hook) (files : List String) :
    matchedFilesFor hook files = amendedSpecFilter hook files
      ∧ (matchedFilesFor hook files).Sublist files := by
  have hsub : ∀ l : List String, matchedFilesFor hook l = l ∨
      ∃ g, (matchedFilesFor hook l).Sublist (filterFiles l g) := by
    intro l
    unfold matchedFilesFor
    by_cases hg : globActive hook l = true
    · right
      refine ⟨hook.glob.getD "", ?_⟩
      simp only [hg, if_true]
      by_cases he : strOptTruthy hook.exclude = true
      · simp only [he, if_true]
        exact List.filter_sublist _
      · simp only [Bool.not_eq_true] at he
        simp only [he, Bool.false_eq_true, if_false]
        exact List.Sublist.refl _
    · left
      simp only [Bool.not_eq_true] at hg
      simp only [hg, Bool.false_eq_true, if_false]
  constructor
  · unfold matchedFilesFor amendedSpecFilter globActive strOptTruthy
    cases hg : hook.glob with
    | none => simp
    | some g =>
      by_cases hge : g = ""
      · simp [hge]
      · by_cases hf : files = []
        · simp [hge, hf]
        · have hne : files.isEmpty = false := by
            simp [List.isEmpty_iff, hf]
          simp only [hge, if_false, hne, Bool.not_false, Bool.and_true,
            Option.getD_some, hf, or_self,
            if_neg (by simp [hge, hf] : ¬(g = "" ∨ files = []))]
          cases he : hook.exclude with
          | none => simp [filterFiles]
          | some e =>
            by_cases hee : e = ""
            · simp [hee, filterFiles]
            · simp [hee, filterFiles, isExcluded]
  · rcases hsub files with h | ⟨g, h⟩
    · rw [h]
    · exact h.trans (List.filter_sublist _)

/-- Counterexample for claim C4: the star does not match every run of
characters; the run bar/foo contains a path separator and is rejected, as
forced by the claims own vector that bar/foo.ts must not match *.ts. -/
theorem c4_counterexample : globMatches "bar/foo" "*" = false := by decide

/-- Claim C4 (amended): the five matching vectors hold, brace alternation
expands to the union of its alternatives, and a star matches any run of
separator-free characters. -/
theorem c4_glob_matcher :
    globMatches "foo.ts" "*.ts" = true
    ∧ globMatches "foo.js" "*.ts" = false
    ∧ globMatches "foo.ts" "*.\x7bts,js\x7d" = true
    ∧ globMatches "foo.js" "*.\x7bts,js\x7d" = true
    ∧ globMatches "bar/foo.ts" "*.ts" = false
    ∧ (∀ p : String, globMatches p "*.\x7bts,js\x7d"
        = (globMatches p "*.ts" || globMatches p "*.js"))
    ∧ (∀ s : String, (∀ c ∈ s.data, c ≠ '/') → globMatches s "*" = true) := by
  refine ⟨by decide, by decide, by decide, by decide, by decide, ?_, ?_⟩
  · intro p
    show (braceExpand "*.\x7bts,js\x7d".data).any (fun q => matchGlob p.data q)
      = ((braceExpand "*.ts".data).any (fun q => matchGlob p.data q)
          || (braceExpand "*.js".data).any (fun q => matchGlob p.data q))
    rw [show braceExpand "*.\x7bts,js\x7d".data
          = ["*.ts".data, "*.js".data] from by decide,
        show braceExpand "*.ts".data = ["*.ts".data] from by decide,
        show braceExpand "*.js".data = ["*.js".data] from by decide]
    simp [List.any_cons]
  · intro s h
    show (braceExpand "*".data).any (fun q => matchGlob s.data q) = true
    rw [show braceExpand "*".data = [['*']] from by decide]
    simp only [List.any_cons, List.any_nil, Bool.or_false]
    exact matchGlob_star s.data h

/-- Witness for claim C4 (amended): the star clause applied to a concrete
separator-free path. -/
theorem c4_witness : globMatches "abc" "*" = true :=
  c4_glob_matcher.2.2.2.2.2.2 "abc" (by decide)

/-- Claim C5: loadConfig resolves sources in a fixed order: a present
deno-hooks.yml decides the outcome regardless of deno.json, an unparseable
deno-hooks.yml is fatal rather than falling through, and when the dedicated
file is absent and deno.json is absent or lacks a truthy deno-hooks key the
result is the configuration-not-found error. -/
theorem c5_resolution_order :
    (∀ v dj, loadConfig (SourceFile.parsed v) dj
        = loadConfig (SourceFile.parsed v) SourceFile.absent)
    ∧ (∀ dj, loadConfig SourceFile.unparseable dj
        = Except.error (LoadError.failedParse "deno-hooks.yml" none))
    ∧ loadConfig SourceFile.absent SourceFile.absent
        = Except.error LoadError.notFound
    ∧ (∀ j, jsTruthyOpt (jsGet j "deno-hooks") = false →
        loadConfig SourceFile.absent (SourceFile.parsed j)
          = Except.error LoadError.notFound) := by
  refine ⟨fun v dj => rfl, fun dj => rfl, rfl, ?_⟩
  intro j h
  rw [loadConfig]
  cases hg : jsGet j "deno-hooks" with
  | none => rfl
  | some dh =>
    rw [hg] at h
    simp only [jsTruthyOpt] at h
    dsimp only
    rw [h]
    rfl

/-- Witness for claim C5: with no deno-hooks.yml and a deno.json lacking the
deno-hooks key, loadConfig fails with the configuration-not-found error. -/
theorem c5_witness :
    loadConfig SourceFile.absent (SourceFile.parsed (Value.obj []))
      = Except.error LoadError.notFound :=
  c5_resolution_order.2.2.2 (Value.obj []) (by decide)

/-- Claim C6: on a configuration whose hook entries carry string-or-absent
id and run properties, validation accepts exactly when every hook of every
trigger has a non-empty id and a non-empty run, and every configuration
loadConfig returns satisfies that property (no partial configuration is
ever returned on a validation failure). -/
theorem c6_validation_requires_id_run :
    ∀ triggers : List (String × List Value),
      (∀ p ∈ triggers, ∀ e ∈ p.2, hookShaped e) →
      ((validateConfig (mkCfg triggers) = Except.ok ()) ↔
        (∀ p ∈ triggers, ∀ e ∈ p.2,
          nonemptyStrField (jsGet e "id") ∧ nonemptyStrField (jsGet e "run")))
      ∧ (∀ dj out,
          loadConfig (SourceFile.parsed (mkCfg triggers)) dj = Except.ok out →
          out = mkCfg triggers ∧
            ∀ p ∈ triggers, ∀ e ∈ p.2,
              nonemptyStrField (jsGet e "id")
                ∧ nonemptyStrField (jsGet e "run")) := by
  intro triggers hshape
  have hiff := (validateConfig_mkCfg triggers) ▸
    validateTriggers_mapped_ok_iff triggers hshape
  refine ⟨hiff, ?_⟩
  intro dj out hload
  rw [loadConfig] at hload
  cases hv : validateConfig (mkCfg triggers) with
  | ok u =>
    cases u
    rw [hv] at hload
    cases hload
    exact ⟨rfl, hiff.mp hv⟩
  | error e =>
    rw [hv] at hload
    exact Except.noConfusion hload

/-- Witness for claim C6: a concrete one-trigger one-hook configuration
with non-empty id and run, on which the validation equivalence is
instantiated. -/
theorem c6_witness :
    (validateConfig (mkCfg [("pre-commit",
        [Value.obj [("id", Value.str "a"), ("run", Value.str "b")]])])
      = Except.ok ()) ↔
      (∀ p ∈ [("pre-commit",
          [Value.obj [("id", Value.str "a"), ("run", Value.str "b")]])],
        ∀ e ∈ p.2,
          nonemptyStrField (jsGet e "id") ∧ nonemptyStrField (jsGet e "run")) :=
  (c6_validation_requires_id_run
    [("pre-commit", [Value.obj [("id", Value.str "a"), ("run", Value.str "b")]])]
    (by
      intro p hp e he
      simp only [List.mem_singleton] at hp
      subst hp
      simp only [List.mem_singleton] at he
      subst he
      exact ⟨Or.inr ⟨"a", rfl⟩, Or.inr ⟨"b", rfl⟩⟩)).1

/-- Claim C7: getHooksForTrigger returns exactly the hook list declared for
a trigger, and the empty list for a trigger the configuration does not
declare. -/
theorem c7_get_hooks_declared :
    (∀ pre post t l, (∀ e ∈ pre, e.1 ≠ t) →
      getHooksForTrigger ⟨pre ++ (t, l) :: post⟩ t = l)
    ∧ (∀ cfg t, (∀ e ∈ cfg.hooks, e.1 ≠ t) → getHooksForTrigger cfg t = []) := by
  constructor
  · intro pre post t l h
    unfold getHooksForTrigger
    rw [lookupHooks_first t l pre h post]
  · intro cfg t h
    unfold getHooksForTrigger
    rw [lookupHooks_none t cfg.hooks h]

/-- Witness for claim C7: a concrete configuration in which pre-commit is
declared after another trigger; lookup returns exactly the declared list. -/
theorem c7_witness :
    getHooksForTrigger ⟨[("pre-push", [])] ++ ("pre-commit", [hookA]) :: []⟩
        "pre-commit" = [hookA] :=
  c7_get_hooks_declared.1 [("pre-push", [])] [] "pre-commit" [hookA] (by decide)

/-- Claim C8: run always returns exit code 0 or 1 with the top-level catch
mapping every failure to 1: a failing git-root discovery, a failing
configuration load, a failing staged-file listing on a pre-commit run with
configured hooks, and an executor exception during the loop all produce
exit code 1 with nothing reported. -/
theorem c8_exit_codes :
    (∀ g cfg staged exec t,
      (run g cfg staged exec t).1 = 0 ∨ (run g cfg staged exec t).1 = 1)
    ∧ (∀ cfg staged exec t,
        run (Except.error ()) cfg staged exec t = (1, []))
    ∧ (∀ root staged exec t,
        run (Except.ok root) (Except.error ()) staged exec t = (1, []))
    ∧ (∀ root cfg exec, getHooksForTrigger cfg "pre-commit" ≠ [] →
        run (Except.ok root) (Except.ok cfg) (Except.error ()) exec "pre-commit"
          = (1, []))
    ∧ (∀ root cfg staged exec t files,
        candidateFiles t staged = Except.ok files →
        getHooksForTrigger cfg t ≠ [] →
        ¬(t = "pre-commit" ∧ files = []) →
        runLoop exec files (getHooksForTrigger cfg t) = Except.error () →
        run (Except.ok root) (Except.ok cfg) staged exec t = (1, [])) := by
  refine ⟨?_, fun cfg staged exec t => rfl, fun root staged exec t => rfl,
    ?_, ?_⟩
  · intro g cfg staged exec t
    cases g with
    | error e => right; rfl
    | ok root =>
      cases cfg with
      | error e => right; rfl
      | ok c =>
        rw [run]
        cases hh : getHooksForTrigger c t with
        | nil => left; rfl
        | cons hook rest =>
          cases hc : candidateFiles t staged with
          | error e => right; rfl
          | ok files =>
            dsimp only
            by_cases hpre : t = "pre-commit" ∧ files = []
            · rw [if_pos hpre]; left; rfl
            · rw [if_neg hpre]
              cases hl : runLoop exec files (hook :: rest) with
              | error e => right; rfl
              | ok results =>
                rw [aggregateResults_ok]
                by_cases hf : (failedOf results).isEmpty = true
                · left; simp [hf]
                · right; simp [hf]
  · intro root cfg exec hne
    rw [run]
    cases hh : getHooksForTrigger cfg "pre-commit" with
    | nil => exact absurd hh hne
    | cons hook rest => rfl
  · intro root cfg staged exec t files hc hne hpre hl
    rw [run]
    cases hh : getHooksForTrigger cfg t with
    | nil => exact absurd hh hne
    | cons hook rest =>
      dsimp only
      rw [hc]
      dsimp only
      rw [if_neg hpre]
      rw [hh] at hl
      rw [hl]
      rfl

/-- Witness for claim C8: a failing staged-file listing on a pre-commit run
with configured hooks yields exit code 1 and an empty report. -/
theorem c8_witness :
    run (Except.ok "root") (Except.ok preCommitConfig) (Except.error ())
        (okExec flagExec) "pre-commit" = (1, []) :=
  c8_exit_codes.2.2.2.1 "root" preCommitConfig (okExec flagExec) (by decide)

/-- Claim C9: run returns exit code 0 with an empty report, executing no
hook, when the trigger has no configured hooks, and on a pre-commit run
whose staged candidate set is empty. -/
theorem c9_early_exit_zero :
    (∀ root cfg staged exec t, getHooksForTrigger cfg t = [] →
      run (Except.ok root) (Except.ok cfg) staged exec t = (0, []))
    ∧ (∀ root cfg exec,
        run (Except.ok root) (Except.ok cfg) (Except.ok []) exec "pre-commit"
          = (0, [])) := by
  constructor
  · intro root cfg staged exec t hh
    rw [run, hh]
  · intro root cfg exec
    rw [run]
    cases hh : getHooksForTrigger cfg "pre-commit" with
    | nil => rfl
    | cons hook rest =>
      simp [candidateFiles_ok]

/-- Witness for claim C9: a trigger with no configured hooks exits with 0
and an empty report. -/
theorem c9_witness :
    run (Except.ok "root") (Except.ok preCommitConfig) (Except.ok ["f.ts"])
        (okExec flagExec) "missing-trigger" = (0, []) :=
  c9_early_exit_zero.1 "root" preCommitConfig (Except.ok ["f.ts"])
    (okExec flagExec) "missing-trigger" (by decide)

/-- Claim C10: a bare command string in a trigger hook list is rejected by
validation with the missing-id error (reaching it past well-formed hook
objects); in particular the parsed default configuration written by
createDefaultConfig, which consists only of bare command strings, makes the
loadConfig call that install performs right after creating it fail. -/
theorem c10_default_config_rejected :
    validateConfig defaultConfigValue
      = Except.error (ValidationError.missingId "pre-commit")
    ∧ (∀ dj, loadConfig (SourceFile.parsed defaultConfigValue) dj
        = Except.error (LoadError.failedParse "deno-hooks.yml"
            (some (ValidationError.missingId "pre-commit"))))
    ∧ (∀ trigger (pre : List Value) cmd post rest,
        (∀ h ∈ pre, goodIdRun h) →
        validateConfig (Value.obj [("hooks", Value.obj
            ((trigger, Value.arr (pre ++ Value.str cmd :: post)) :: rest))])
          = Except.error (ValidationError.missingId trigger)) := by
  refine ⟨rfl, fun dj => rfl, ?_⟩
  intro trigger pre cmd post rest hgood
  show validateTriggers
      ((trigger, Value.arr (pre ++ Value.str cmd :: post)) :: rest)
    = Except.error (ValidationError.missingId trigger)
  rw [validateTriggers]
  rw [validateHooks_skip_good trigger pre hgood]
  rw [show validateHooks trigger (Value.str cmd :: post)
      = Except.error (ValidationError.missingId trigger)
    from by simp [validateHooks, jsTruthyOpt, jsGet]]

/-- Witness for claim C10: a concrete trigger list holding one bare command
string is rejected with the missing-id error. -/
theorem c10_witness :
    validateConfig (Value.obj [("hooks", Value.obj
        [("pre-commit", Value.arr [Value.str "deno task fmt"])])])
      = Except.error (ValidationError.missingId "pre-commit") :=
  c10_default_config_rejected.2.2 "pre-commit" [] "deno task fmt" [] []
    (by intro h hh; exact absurd hh (List.not_mem_nil h))

end DenoHooks
